import Mathlib

/-!
Verification development for the RAG_analysis repository.

Python strings are embedded as `List Char`; Python's `in` on strings is the
infix relation, `str.lower()`/`upper()`/`strip()` are modelled character-wise
(ASCII and the Cyrillic block, which covers every character the code and its
prompts use).  LLM and database calls are modelled as oracle outcomes (an
inductive of "call failed" / "call returned this text"), exceptions as
`Option`/explicit fallback branches, mirroring each `try/except` of the source.
-/

/-- Whitespace characters recognised by Python `str.strip()` / `\s` (ASCII part). -/
def pyIsSpace (c : Char) : Bool :=
  c.toNat = 32 || c.toNat = 9 || c.toNat = 10 || c.toNat = 13 ||
  c.toNat = 11 || c.toNat = 12

/-- ASCII decimal digit test, modelling `str.isdigit` / `float` digit scanning. -/
def pyIsDigit (c : Char) : Bool := 48 ≤ c.toNat && c.toNat ≤ 57

/-- Character lowering as performed by Python `str.lower()`, restricted to the
ASCII letters and the Cyrillic block (А-Я → а-я, Ё → ё) actually used by the code. -/
def toLowerPy (c : Char) : Char :=
  if 65 ≤ c.toNat && c.toNat ≤ 90 then Char.ofNat (c.toNat + 32)
  else if 1040 ≤ c.toNat && c.toNat ≤ 1071 then Char.ofNat (c.toNat + 32)
  else if c.toNat = 1025 then Char.ofNat 1105
  else c

/-- Character uppering as performed by Python `str.upper()`, restricted to the
ASCII letters and the Cyrillic block (а-я → А-Я, ё → Ё). -/
def toUpperPy (c : Char) : Char :=
  if 97 ≤ c.toNat && c.toNat ≤ 122 then Char.ofNat (c.toNat - 32)
  else if 1072 ≤ c.toNat && c.toNat ≤ 1103 then Char.ofNat (c.toNat - 32)
  else if c.toNat = 1105 then Char.ofNat 1025
  else c

/-- Python `s.lower()`. -/
def pyLower (s : List Char) : List Char := s.map toLowerPy

/-- Python `s.upper()`. -/
def pyUpper (s : List Char) : List Char := s.map toUpperPy

/-- Python `s.strip()` (whitespace from both ends). -/
def pyStrip (s : List Char) : List Char :=
  ((s.dropWhile pyIsSpace).reverse.dropWhile pyIsSpace).reverse

/-- Python `needle in hay` for strings: substring occurrence. -/
def pyContains (hay needle : List Char) : Bool := decide (needle <:+: hay)

/-- `sep.join(parts)`. -/
def joinWith (sep : List Char) : List (List Char) → List Char
  | [] => []
  | [x] => x
  | x :: y :: xs => x ++ sep ++ joinWith sep (y :: xs)

/-- Fuelled decimal rendering: with enough fuel, the digit characters of `n`
(most significant first). -/
def natCharsAux : Nat → Nat → List Char
  | 0, _ => []
  | fuel + 1, n => if n = 0 then [] else natCharsAux fuel (n / 10) ++ [Nat.digitChar (n % 10)]

/-- Decimal digit characters of a natural number (Python `str(n)` for `n ≥ 1`). -/
def natChars (n : Nat) : List Char := natCharsAux n n

/-- Outcome of one external LLM call: the transport raised, or it returned text.
`giga.chat(prompt)` with the subsequent `.choices[0].message.content` access. -/
inductive LLMResult where
  | fail : LLMResult
  | ok (text : List Char) : LLMResult

/-! ## Query classifier — `RAGSystem.classify_query`, src/rag_system.py lines 141-178 -/

/-- `any(op in user_query for op in ['>', '<', '=', '>=', '<='])`. -/
def hasCompOp (q : List Char) : Bool :=
  pyContains q ">".data || pyContains q "<".data || pyContains q "=".data ||
  pyContains q ">=".data || pyContains q "<=".data

/-- `any(char.isdigit() for char in user_query)`. -/
def hasDigitChar (q : List Char) : Bool := q.any pyIsDigit

/-- The fallback classification heuristic of `classify_query` (lines 169-172 and 175-178). -/
def heuristicClassify (q : List Char) : List Char :=
  if hasCompOp q || hasDigitChar q then "STRUCTURED".data else "SEMANTIC".data

/-- `RAGSystem.classify_query` with the LLM call abstracted as an oracle outcome. -/
def classify_query (q : List Char) (r : LLMResult) : List Char :=
  match r with
  | .fail => heuristicClassify q
  | .ok t =>
    let qt := pyUpper (pyStrip t)
    if pyContains qt "STRUCTURED".data then "STRUCTURED".data
    else if pyContains qt "SEMANTIC".data then "SEMANTIC".data
    else if pyContains qt "COMBINED".data then "COMBINED".data
    else heuristicClassify q

/-! ## Feature match check — `RAGSystemLangChain.check_feature_match`,
src/test_final_v2.py lines 381-421 -/

/-- `check_feature_match`: the LLM answer is uppercased and the feature is kept
only when the text contains "ДА" or "YES"; any transport error yields `False`. -/
def check_feature_match (r : LLMResult) : Bool :=
  match r with
  | .fail => false
  | .ok t =>
    let ans := pyUpper (pyStrip t)
    if pyContains ans "ДА".data || pyContains ans "YES".data then true else false

/-! ## Candidate binding extraction — `RAGSystemLangChain._extract_candidate_bindings`,
src/test_final_v2.py lines 579-600.
`re.search(r'Candidate bindings:\s*([^\n]+)', error_msg)` followed by
`re.findall(r'"([^"]+)"', bindings_str)`. -/

/-- The literal part of the search pattern. -/
def candidateLit : List Char := "Candidate bindings:".data

/-- One attempted match of the pattern tail `\s*([^\n]+)` at a fixed position:
the regex engine takes a maximal run of whitespace, backtracking so that the
group `[^\n]+` can still take at least one non-newline character; returns the
captured group. -/
def reSearchTail (rest : List Char) : Option (List Char) :=
  let k := (rest.takeWhile pyIsSpace).length
  if k < rest.length then some ((rest.drop k).takeWhile (fun c => c ≠ '\n'))
  else
    let ws := (rest.reverse.dropWhile (fun c => c = '\n')).reverse
    if ws.isEmpty then none
    else some ((rest.drop (ws.length - 1)).takeWhile (fun c => c ≠ '\n'))

/-- `re.search` for `Candidate bindings:\s*([^\n]+)`: try each start position
from the left; at a position where the literal matches, attempt the tail and on
failure resume the scan one character further. Returns group 1. -/
def reSearchCandidate : List Char → Option (List Char)
  | [] => none
  | c :: rest =>
    if candidateLit.isPrefixOf (c :: rest) then
      match reSearchTail ((c :: rest).drop candidateLit.length) with
      | some g => some g
      | none => reSearchCandidate rest
    else reSearchCandidate rest

/-- `re.findall(r'"([^"]+)"', s)`: left-to-right scan; `none` state is outside
quotes, `some acc` is inside a candidate match with `acc` the (reversed)
non-quote characters read so far; an immediately closing quote (empty group)
fails the match and the scan restarts at that quote. -/
def scanQuoted : Option (List Char) → List Char → List (List Char)
  | _, [] => []
  | none, c :: r => if c = '"' then scanQuoted (some []) r else scanQuoted none r
  | some acc, c :: r =>
    if c = '"' then
      if acc.isEmpty then scanQuoted (some []) r else acc.reverse :: scanQuoted none r
    else scanQuoted (some (c :: acc)) r

/-- `_extract_candidate_bindings`. -/
def extract_candidate_bindings (msg : List Char) : List (List Char) :=
  match reSearchCandidate msg with
  | none => []
  | some g => scanQuoted none g

/-- Render a bindings line `"ColA", "ColB"` from a list of names
(used to state the claim's scenario over arbitrary name lists). -/
def quotedNameList (names : List (List Char)) : List Char :=
  joinWith ", ".data (names.map (fun n => '"' :: (n ++ ['"'])))

/-- The repair-prompt context built at attempt 2 of `generate_sql_query`
(src/test_final_v2.py lines 476-479): `unique_bindings = list(set(candidate_bindings))`
(modelled by `dedup`, which keeps exactly the distinct elements) and
`"\n".join([f"- \x60{col}\x60" for col in unique_bindings])` with the fallback
text when empty. -/
def candidate_bindings_text (bindings : List (List Char)) : List Char :=
  let unique := bindings.dedup
  if unique.isEmpty then "Не указаны".data
  else joinWith "\n".data (unique.map (fun col => "- `".data ++ col ++ "`".data))

/-! ## SQL execution — `RAGSystemLangChain.execute_sql_query`,
src/test_final_v2.py lines 602-643 -/

/-- Outcome of `conn.execute(sql_query).fetchdf()`: rows, or a raised exception
with its message. Rows are left abstract. -/
inductive ExecOutcome where
  | ok (rows : List (List Char)) : ExecOutcome
  | err (msg : List Char) : ExecOutcome

/-- Instance attributes mutated by the executor:
`self.last_sql_error` and `self.last_candidate_bindings`. -/
structure ExecState where
  lastError : Option (List Char)
  lastBindings : List (List Char)

/-- `execute_sql_query`: on success return the rows; on an engine exception in
test mode record the error, record extracted candidate bindings when non-empty,
and return `None`; outside test mode return an empty DataFrame (`some []`).
No exception escapes. -/
def execute_sql_query (st : ExecState) (oc : ExecOutcome) (testMode : Bool) :
    Option (List (List Char)) × ExecState :=
  match oc with
  | .ok rows => (some rows, st)
  | .err m =>
    if testMode then
      let cb := extract_candidate_bindings m
      (none, { lastError := some m
               lastBindings := if cb.isEmpty then st.lastBindings else cb })
    else (some [], st)

/-! ## Self-healing SQL generation — `RAGSystemLangChain.generate_sql_query`,
src/test_final_v2.py lines 432-577 -/

/-- Oracle outcome of one iteration of the retry loop: the LLM call raised, or
it returned raw text whose cleaned query then executed with success flag
`execOk` (`execute_sql_query(..., test_mode=True) is not None`). The prompt
sent at each attempt is a function of the accumulated error state only, so the
environment's behaviour per attempt is modelled as this oracle. -/
inductive SqlAttempt where
  | genFail : SqlAttempt
  | genOk (raw : List Char) (execOk : Bool) : SqlAttempt

/-- Markdown-fence cleanup applied to the LLM response
(src/test_final_v2.py lines 517-526). -/
def stripMarkdown (s : List Char) : List Char :=
  let s1 := pyStrip s
  let s2 := if "```sql".data.isPrefixOf s1 then s1.drop 6 else s1
  let s3 := if "```".data.isPrefixOf s2 then s2.drop 3 else s2
  let s4 := if "```".data.isSuffixOf s3 then s3.take (s3.length - 3) else s3
  pyStrip s4

/-- An attempt that did not produce an executable query: the LLM call raised,
or the generated query failed execution. -/
def attemptFailed : SqlAttempt → Bool
  | .genFail => true
  | .genOk _ e => !e

/-- The `while attempt < max_attempts` loop body: a failed LLM call or a failed
execution moves to the next attempt (recording errors for the next prompt); a
successful execution returns the cleaned query immediately; exhausting the list
(the attempt budget) yields `none`. -/
def sqlAttemptsRun : List SqlAttempt → Option (List Char)
  | [] => none
  | .genFail :: rest => sqlAttemptsRun rest
  | .genOk raw e :: rest => if e then some (stripMarkdown raw) else sqlAttemptsRun rest

/-- `generate_sql_query` with `max_attempts = 3` (the default used by the
pipeline): only the first three oracle outcomes can be consumed. -/
def generate_sql_query (outs : List SqlAttempt) (maxAttempts : Nat) : Option (List Char) :=
  sqlAttemptsRun (outs.take maxAttempts)

/-- The per-feature step of `RAGSystemLangChain.query` (src/test_final_v2.py
lines 840-855): when `generate_sql_query` returned no query (or an empty one,
which is falsy) the feature contributes no rows; otherwise the query is executed
and an empty result is likewise skipped. -/
def feature_rows (exec : List Char → List (List Char)) (gen : Option (List Char)) :
    List (List Char) :=
  match gen with
  | none => []
  | some sql => if sql.isEmpty then [] else (if (exec sql).isEmpty then [] else exec sql)

/-! ## Query formalization — `QueryFormalizer.formalize_query`,
src/query_formalizer.py lines 123-193, dataclass lines 43-54 -/

/-- JSON values as produced by parsing the LLM response
(`json.loads`; `jnull` is Python `None`). -/
inductive JVal where
  | jnull : JVal
  | jbool (b : Bool) : JVal
  | jnum (q : ℚ) : JVal
  | jstr (s : List Char) : JVal
  | jarr (elems : List JVal) : JVal
  | jobj (fields : List (List Char × JVal)) : JVal

/-- Python truthiness of a parsed JSON value. -/
def pyTruthy : JVal → Bool
  | .jnull => false
  | .jbool b => b
  | .jnum q => decide (q ≠ 0)
  | .jstr s => !s.isEmpty
  | .jarr l => !l.isEmpty
  | .jobj l => !l.isEmpty

/-- Values usable in a dict-membership test; lists and dicts raise `TypeError`. -/
def jvalHashable : JVal → Bool
  | .jarr _ => false
  | .jobj _ => false
  | _ => true

/-- Keys of `AVAILABLE_ATTRIBUTES` (src/query_formalizer.py lines 23-30). -/
def AVAILABLE_ATTRIBUTES_keys : List (List Char) :=
  ["Corg".data, "R0".data, "depth".data, "region".data, "layer_name".data, "location".data]

/-- Keys of `AVAILABLE_ACTIONS` (src/query_formalizer.py lines 33-40). -/
def AVAILABLE_ACTIONS_keys : List (List Char) :=
  ["max".data, "min".data, "avg".data, "sum".data, "count".data, "list".data]

/-- `v in d` for a string-keyed dict and a hashable value: only an equal
string key is a member. -/
def jvalKeyMem (keys : List (List Char)) : JVal → Bool
  | .jstr s => decide (s ∈ keys)
  | _ => false

/-- The four fields read from the parsed JSON object via `parsed.get` calls;
`none` models a missing key. -/
structure ParsedResponse where
  attributes : Option JVal
  location : Option JVal
  action : Option JVal
  filters : Option JVal

/-- `parsed.get(key)`: a JSON `null` value is Python `None`, indistinguishable
from a missing key. -/
def pyGetOpt (v : Option JVal) : Option JVal :=
  match v with
  | some .jnull => none
  | x => x

/-- The `FormalizedQuery` dataclass (attributes list, optional location and
action values, filters defaulting to the empty dict, raw query). -/
structure FormalizedQuery where
  attributes : List (List Char)
  location : Option JVal
  action : Option JVal
  filters : JVal
  raw_query : List Char

/-- `FormalizedQuery(attributes=[], raw_query=user_query)` — the object built on
any parse or service failure (lines 158-162 and 188-193). -/
def fallbackQuery (q : List Char) : FormalizedQuery :=
  ⟨[], none, none, .jobj [], q⟩

/-- `attributes = parsed.get("attributes", [])` followed by the
`isinstance(attributes, list)` guard: a missing key or a non-list value
becomes the empty list. -/
def attrsOfParsed (v : Option JVal) : List JVal :=
  match v with
  | some (.jarr l) => l
  | _ => []

/-- `[attr for attr in attributes if attr in AVAILABLE_ATTRIBUTES]`: only the
string elements naming a known attribute survive. -/
def filterKnownAttrs (l : List JVal) : List (List Char) :=
  l.filterMap (fun v => match v with
    | .jstr s => if decide (s ∈ AVAILABLE_ATTRIBUTES_keys) then some s else none
    | _ => none)

/-- `parsed.get("filters", {})` with the dataclass `__post_init__` defaulting. -/
def filtersOfParsed (v : Option JVal) : JVal :=
  match pyGetOpt v with
  | none => JVal.jobj []
  | some w => w

/-- `formalize_query` after the LLM call and JSON extraction, with the combined
outcome as input: `none` models an LLM failure or unparseable JSON.  Mirrors the
validation: a non-list `attributes` becomes `[]`; the list is filtered to known
attribute keys (an unhashable element makes the membership test raise, which the
outer `except` turns into the fallback object); a truthy `action` not among the
known actions is reset to `None`, while a falsy one is stored unchanged. -/
def formalize_query (q : List Char) (resp : Option ParsedResponse) : FormalizedQuery :=
  match resp with
  | none => fallbackQuery q
  | some p =>
    let attrs0 := attrsOfParsed p.attributes
    if attrs0.any (fun v => !jvalHashable v) then fallbackQuery q
    else
      let attributes := filterKnownAttrs attrs0
      let location := pyGetOpt p.location
      let filters := filtersOfParsed p.filters
      match pyGetOpt p.action with
      | none => ⟨attributes, location, none, filters, q⟩
      | some av =>
        if pyTruthy av then
          if jvalHashable av then
            if jvalKeyMem AVAILABLE_ACTIONS_keys av then
              ⟨attributes, location, some av, filters, q⟩
            else ⟨attributes, location, none, filters, q⟩
          else fallbackQuery q
        else ⟨attributes, location, some av, filters, q⟩

/-! ## Column-collision renaming — `CSVSQLEngine._load_csv`,
src/opensearch_test.py lines 329-356 -/

/-- The suffix marker appended to a colliding column. -/
def dupMarker : List Char := "_dup".data

/-- `seen_cols[col_lower]` lookup in the dict accumulated by the loop. -/
def seenLookup : List (List Char × Nat) → List Char → Option Nat
  | [], _ => none
  | (k, v) :: rest, key => if k = key then some v else seenLookup rest key

/-- `seen_cols[col_lower] = v` for an existing key. -/
def seenSet : List (List Char × Nat) → List Char → Nat → List (List Char × Nat)
  | [], _, _ => []
  | (k', v') :: rest, key, v =>
    if k' = key then (k', v) :: seenSet rest key v else (k', v') :: seenSet rest key v

/-- `col.strip().lower()` — the collision key of a column. -/
def renameKey (c : List Char) : List Char := pyLower (pyStrip c)

/-- The renaming loop of `_load_csv`: the first column with a given key keeps
its name (and the key is recorded with count 1); a later column with the same
key becomes the original name with `_dup{count}` appended, incrementing the
count. -/
def renameColumnsGo (seen : List (List Char × Nat)) : List (List Char) → List (List Char)
  | [] => []
  | c :: cs =>
    let key := renameKey c
    match seenLookup seen key with
    | some count =>
      (c ++ dupMarker ++ natChars count) :: renameColumnsGo (seenSet seen key (count + 1)) cs
    | none => c :: renameColumnsGo ((key, 1) :: seen) cs

/-- `_load_csv`'s duplicate-column disambiguation over the CSV's column list. -/
def renameColumns (cols : List (List Char)) : List (List Char) :=
  renameColumnsGo [] cols

/-! ## Import verification — `import_index`, src/rag_web/import_opensearch.py
lines 385-398, and `export_index`, src/rag_web/export_opensearch.py lines 126-146 -/

/-- `export_data` records `total_documents` as the length of the exported
document list. -/
def export_total (docs : List (List Char)) : Nat := docs.length

/-- The post-import count verification of `import_index`: given the number of
documents read from the export file and the outcome of `client.count`
(`none` models a raised count error), returns
`(imported_count, warning printed?, return value)`.  A mismatch only prints a
warning; the function returns `True` in every case. -/
def import_verify (totalDocs : Nat) (countResult : Option Nat) : Nat × Bool × Bool :=
  match countResult with
  | some c => (c, decide (0 < totalDocs) && decide (c ≠ totalDocs), true)
  | none => (0, false, true)

/-! ## Coordinate extraction — `RAGSystemLangChain.extract_coordinates`,
src/test_final_v2.py lines 871-950 -/

/-- Numeric value of a run of decimal digit characters. -/
def digitsVal (l : List Char) : Nat := l.foldl (fun a c => 10 * a + (c.toNat - 48)) 0

/-- Unsigned decimal parsing: integer digits with an optional fractional part
(at least one digit overall), as accepted by Python `float` on plain decimals. -/
def parseUnsigned (s : List Char) : Option ℚ :=
  let ip := s.takeWhile pyIsDigit
  let r := s.dropWhile pyIsDigit
  match r with
  | [] => if ip.isEmpty then none else some (digitsVal ip)
  | '.' :: r2 =>
    let fp := r2.takeWhile pyIsDigit
    let r3 := r2.dropWhile pyIsDigit
    if r3.isEmpty && (!ip.isEmpty || !fp.isEmpty) then
      some ((digitsVal ip : ℚ) + (digitsVal fp : ℚ) / (10 : ℚ) ^ fp.length)
    else none
  | _ => none

/-- Python `float(s)` on plain decimal notation (optional sign, digits, optional
fractional part); `none` models the raised `ValueError` on any other text. -/
def pyFloat (s : List Char) : Option ℚ :=
  match s with
  | '-' :: rest => (parseUnsigned rest).map (fun q => -q)
  | '+' :: rest => parseUnsigned rest
  | _ => parseUnsigned s

/-- Split a string at every comma (`s.split(',')`); the result is never empty. -/
def splitComma : List Char → List (List Char)
  | [] => [[]]
  | c :: rest =>
    let r := splitComma rest
    if c = ',' then [] :: r
    else
      match r with
      | x :: xs => (c :: x) :: xs
      | [] => [[c]]

/-- `s.strip('[]')` — remove any leading/trailing square brackets. -/
def stripBrackets (s : List Char) : List Char :=
  let br : Char → Bool := fun c => c = '[' || c = ']'
  ((s.dropWhile br).reverse.dropWhile br).reverse

/-- `ast.literal_eval` on a flat list literal of plain decimal numbers, e.g.
`"[44.3, 48.0]"`; `none` models a raised parse error (or a later `float(...)`
error on a non-numeric element, which the source handles identically through
its fallback branch). -/
def literalList (s : List Char) : Option (List ℚ) :=
  match s with
  | '[' :: rest =>
    if rest.getLast? = some ']' then
      let inner := rest.dropLast
      if (pyStrip inner).isEmpty then some []
      else (splitComma inner).mapM (fun p => pyFloat (pyStrip p))
    else none
  | _ => none

/-- The longitude branch of `extract_coordinates` on one stripped cell text:
an array-like string takes `float(lon_array[0])`, with the regex-free fallback
`float(lon_str.strip('[]').split(',')[0].strip())` on a parse error; a plain
string goes through `float` directly; `none` models `continue` (the row is
dropped). -/
def lonFromStr (lonStr : List Char) : Option ℚ :=
  if lonStr.head? = some '[' then
    match literalList lonStr with
    | some (x :: _) => some x
    | some [] => none
    | none => pyFloat (pyStrip ((splitComma (stripBrackets lonStr)).headI))
  else pyFloat lonStr

/-- The latitude branch: an array-like string takes
`float(lat_array[-1] if len(lat_array) > 1 else lat_array[0])` — the last
element — with the fallback `split(',')[-1]`. -/
def latFromStr (latStr : List Char) : Option ℚ :=
  if latStr.head? = some '[' then
    match literalList latStr with
    | some (x :: xs) => some ((x :: xs).getLastD 0)
    | some [] => none
    | none => pyFloat (pyStrip ((splitComma (stripBrackets latStr)).getLastD []))
  else pyFloat latStr

/-- One result row as seen by `extract_coordinates`: the `lon`/`lat` cell texts
(`none` when the cell is missing or `pd.notna` fails) and the five columns
collected into the `info` string. -/
structure CoordRow where
  lon : Option (List Char)
  lat : Option (List Char)
  layer_name : Option (List Char)
  region : Option (List Char)
  svita : Option (List Char)
  plast : Option (List Char)
  matched : Option (List Char)

/-- The validated coordinate record `{"lon": ..., "lat": ..., "info": ...}`. -/
structure GeoCoordinate where
  lon : ℚ
  lat : ℚ
  info : List Char
deriving DecidableEq

/-- The `info` string: `", ".join(f"{col}: {row[col]}")` over the present
info columns, defaulting to `f"Запись {idx + 1}"`. -/
def rowInfo (idx : Nat) (r : CoordRow) : List Char :=
  let parts := ([("layer_name".data, r.layer_name), ("Регион".data, r.region),
      ("Свита".data, r.svita), ("Пласт".data, r.plast),
      ("matched_feature".data, r.matched)]).filterMap
    (fun p => match p.2 with
      | some v => some (p.1 ++ ": ".data ++ v)
      | none => none)
  if parts.isEmpty then "Запись ".data ++ natChars (idx + 1)
  else joinWith ", ".data parts

/-- The per-row body of `extract_coordinates`: parse both cells, then keep the
pair only when `-180 <= lon <= 180 and -90 <= lat <= 90`; every failure path
(`continue`) yields `none`. -/
def rowCoord (idx : Nat) (r : CoordRow) : Option GeoCoordinate :=
  match r.lon, r.lat with
  | some lonRaw, some latRaw =>
    (match lonFromStr (pyStrip lonRaw), latFromStr (pyStrip latRaw) with
     | some lonV, some latV =>
       if -180 ≤ lonV ∧ lonV ≤ 180 ∧ -90 ≤ latV ∧ latV ≤ 90 then
         some ⟨lonV, latV, rowInfo idx r⟩
       else none
     | _, _ => none)
  | _, _ => none

/-- `extract_coordinates`: nothing is produced unless both `lon` and `lat`
columns exist; otherwise each row is processed independently. -/
def extract_coordinates (hasLonLat : Bool) (rows : List CoordRow) : List GeoCoordinate :=
  if hasLonLat then rows.enum.filterMap (fun p => rowCoord p.1 p.2) else []

/-! ## Final summary post-check — `RAGSystemLangChain.generate_final_summary`,
src/test_final_v2.py lines 645-753 -/

/-- `line.replace("Запись ", "• ")` (all occurrences, left to right). -/
def replaceZapis (s : List Char) : List Char :=
  match s with
  | [] => []
  | c :: rest =>
    if "Запись ".data.isPrefixOf (c :: rest) then
      "• ".data ++ replaceZapis ((c :: rest).drop 7)
    else c :: replaceZapis rest
termination_by s.length
decreasing_by
  · simp only [List.length_drop, List.length_cons]
    omega
  · simp

/-- The `"="*60` separator line. -/
def sepLine : List Char := List.replicate 60 '='

/-- `coordinates_section` as built in lines 710-718: the full delimited section
when coordinate lines exist (with a leading note when the data preview was
truncated to `max_rows_for_prompt` rows), and the warning text otherwise. -/
def mkCoordinatesSection (totalResults maxRows : Nat) (coordLines : List (List Char)) :
    List Char :=
  if coordLines.isEmpty then "\n\n⚠️ ВНИМАНИЕ: Координаты не найдены в данных.".data
  else
    let coordsText0 := joinWith "\n".data coordLines
    let coordsText :=
      if maxRows < totalResults then
        "Всего найдено ".data ++ natChars totalResults ++
        " записей с координатами. В данных для анализа показаны первые ".data ++
        natChars maxRows ++ " записей, но все координаты доступны на карте.\n\n".data ++
        coordsText0
      else coordsText0
    "\n\n".data ++ sepLine ++ "\nКООРДИНАТЫ НАЙДЕННЫХ ЗАПИСЕЙ:\n".data ++ sepLine ++
    "\n".data ++ coordsText ++ "\n".data ++ sepLine

/-- The coordinates appendix forced into the answer by the post-check
(line 739). -/
def mkCoordsAppendix (coordLines : List (List Char)) : List Char :=
  "\n\n📍 КООРДИНАТЫ НАЙДЕННЫХ ЗАПИСЕЙ:\n".data ++
  joinWith "\n".data (coordLines.map replaceZapis)

/-- The post-check of lines 736-740: when a coordinates section exists and the
LLM's (stripped) answer mentions neither `'координат'` (case-insensitively) nor
the 📍 marker, the coordinates appendix is concatenated onto the answer. -/
def summaryPostCheck (coordinatesSection : List Char) (coordLines : List (List Char))
    (summary : List Char) : List Char :=
  if !coordinatesSection.isEmpty && !pyContains (pyLower summary) "координат".data &&
     !pyContains summary "📍".data then
    summary ++ mkCoordsAppendix coordLines
  else summary

/-- `generate_final_summary` for a non-empty result table, after the data
preview and `coordinates_list` have been computed: on an LLM success the
post-check runs on the stripped response; on an LLM failure the fallback answer
of lines 747-753 carries the coordinates section itself. -/
def generate_final_summary (totalResults maxRows : Nat) (coordLines : List (List Char))
    (retrievedData : List Char) (r : LLMResult) : List Char :=
  let coordinatesSection := mkCoordinatesSection totalResults maxRows coordLines
  match r with
  | .ok t => summaryPostCheck coordinatesSection coordLines (pyStrip t)
  | .fail =>
    let fb := "Найдено ".data ++ natChars totalResults ++ " записей:\n\n".data ++
      retrievedData
    if coordinatesSection.isEmpty then fb else fb ++ coordinatesSection

/-- The action invariant asserted by the specification for `FormalizedQuery`:
the `action` field is absent or one of the enumerated action keys.  (Stated from
the spec, to be compared against `formalize_query`.) -/
def formalizedActionInEnum (fq : FormalizedQuery) : Prop :=
  fq.action = none ∨ ∃ s, fq.action = some (.jstr s) ∧ s ∈ AVAILABLE_ACTIONS_keys

/-! # Theorems -/

/-- C8: classification is total, always yields one of the three labels, and
falls back to the comparison-operator/digit heuristic both when the LLM call
fails and when its text contains none of the three labels. -/
theorem classify_query_total_and_heuristic (q : List Char) (r : LLMResult) :
    (classify_query q r = "STRUCTURED".data ∨ classify_query q r = "SEMANTIC".data ∨
      classify_query q r = "COMBINED".data) ∧
    (r = .fail →
      classify_query q r =
        (if hasCompOp q || hasDigitChar q then "STRUCTURED".data else "SEMANTIC".data)) ∧
    (∀ t, r = .ok t →
      ¬ ("STRUCTURED".data <:+: pyUpper (pyStrip t)) →
      ¬ ("SEMANTIC".data <:+: pyUpper (pyStrip t)) →
      ¬ ("COMBINED".data <:+: pyUpper (pyStrip t)) →
      classify_query q r =
        (if hasCompOp q || hasDigitChar q then "STRUCTURED".data else "SEMANTIC".data)) := by
  refine ⟨?_, ?_, ?_⟩
  · cases r with
    | fail =>
      simp only [classify_query, heuristicClassify]
      split_ifs <;> tauto
    | ok t =>
      simp only [classify_query, heuristicClassify, pyContains]
      split_ifs <;> tauto
  · rintro rfl
    simp only [classify_query, heuristicClassify]
  · rintro t rfl h1 h2 h3
    simp only [classify_query, heuristicClassify, pyContains, decide_eq_true_eq]
    rw [if_neg h1, if_neg h2, if_neg h3]

/-- C8 witness: a query with a comparison operator classifies as STRUCTURED
when the LLM call fails. -/
theorem classify_query_total_and_heuristic_witness :
    classify_query "Где R0 > 1.0?".data .fail = "STRUCTURED".data := by
  have h := (classify_query_total_and_heuristic "Где R0 > 1.0?".data .fail).2.1 rfl
  rw [h]
  decide

/-- C6: the feature-match check never keeps a candidate unless the uppercased
LLM answer contains an affirmative "ДА" or "YES"; a failed LLM call always
yields `false`. -/
theorem check_feature_match_affirmative_only :
    check_feature_match .fail = false ∧
    ∀ t, check_feature_match (.ok t) = true →
      ("ДА".data <:+: pyUpper (pyStrip t)) ∨ ("YES".data <:+: pyUpper (pyStrip t)) := by
  refine ⟨rfl, ?_⟩
  intro t h
  simp only [check_feature_match, pyContains] at h
  split_ifs at h with hc
  rcases Bool.or_eq_true_iff.mp hc with h' | h' <;>
    [left; right] <;> exact of_decide_eq_true h'

/-- C6 witness: an affirmative answer does contain the affirmation marker. -/
theorem check_feature_match_affirmative_only_witness :
    ("ДА".data <:+: pyUpper (pyStrip "Да, соответствует".data)) ∨
    ("YES".data <:+: pyUpper (pyStrip "Да, соответствует".data)) :=
  check_feature_match_affirmative_only.2 "Да, соответствует".data (by decide)

/-- C9 counterexample: the importer does not assert that the imported count
equals the exported count — with 2 exported documents and a cluster count of 1
it still returns success (`True`), merely printing a warning. -/
theorem import_no_assert_counterexample :
    (import_verify 2 (some 1)).1 ≠ 2 ∧ (import_verify 2 (some 1)).2.2 = true := by
  decide

/-- C9 amended: the importer compares the post-import cluster count with the
exported count and only prints a warning on mismatch (and prints none when the
count query itself fails); it returns `True` in every case — there is no
assertion, so equality of the counts is not enforced. -/
theorem import_verify_warns_only (totalDocs c : Nat) :
    (import_verify totalDocs (some c)).1 = c ∧
    ((import_verify totalDocs (some c)).2.1 = true ↔ 0 < totalDocs ∧ c ≠ totalDocs) ∧
    ∀ cr, (import_verify totalDocs cr).2.2 = true := by
  refine ⟨rfl, ?_, ?_⟩
  · simp [import_verify]
  · intro cr
    cases cr <;> rfl

/-- C10: `execute_sql_query` never lets an engine exception escape: a success
returns the rows unchanged; an error in test mode returns `None`, records the
error message and (when non-empty) the candidate bindings extracted from it;
an error outside test mode returns an empty DataFrame. -/
theorem execute_sql_query_never_raises (st : ExecState) (oc : ExecOutcome) :
    (∀ rows, oc = .ok rows → ∀ tm, execute_sql_query st oc tm = (some rows, st)) ∧
    (∀ m, oc = .err m →
      execute_sql_query st oc true =
        (none, ⟨some m,
          if (extract_candidate_bindings m).isEmpty then st.lastBindings
          else extract_candidate_bindings m⟩) ∧
      execute_sql_query st oc false = (some [], st)) := by
  constructor
  · rintro rows rfl tm
    rfl
  · rintro m rfl
    exact ⟨rfl, rfl⟩

/-- C10 witness: concrete success and error executions. -/
theorem execute_sql_query_never_raises_witness :
    execute_sql_query ⟨none, []⟩ (.ok ["r1".data]) true = (some ["r1".data], ⟨none, []⟩) ∧
    execute_sql_query ⟨none, []⟩ (.err "boom".data) false = (some [], ⟨none, []⟩) :=
  ⟨(execute_sql_query_never_raises ⟨none, []⟩ (.ok ["r1".data])).1 ["r1".data] rfl true,
   ((execute_sql_query_never_raises ⟨none, []⟩ (.err "boom".data)).2 "boom".data rfl).2⟩

/-- C5 counterexample: an LLM response parsing to `{"attributes": [], "action": ""}`
produces a stored query whose `action` is the empty string — neither absent nor
one of the enumerated actions.  The normalization `if formalized.action and ...`
skips falsy values, so the claim "any other value is normalized to absent" fails. -/
theorem formalize_query_action_counterexample :
    ¬ formalizedActionInEnum
        (formalize_query "q".data (some ⟨some (.jarr []), none, some (.jstr []), none⟩)) := by
  have hact :
      (formalize_query "q".data
        (some ⟨some (.jarr []), none, some (.jstr []), none⟩)).action = some (.jstr []) := rfl
  intro h
  rcases h with h | ⟨s, hs, hmem⟩
  · rw [hact] at h
    exact Option.noConfusion h
  · rw [hact] at hs
    have hsv : JVal.jstr [] = JVal.jstr s := Option.some.inj hs
    have hse : ([] : List Char) = s := JVal.jstr.inj hsv
    rw [← hse] at hmem
    simp [AVAILABLE_ACTIONS_keys] at hmem

/-- C5 amended: for every formalization outcome, the stored `attributes` list is
a subset of the declared known attributes; any parse or service failure yields
an empty `attributes` list; and the stored `action` is absent, one of the
enumerated action keys, or a falsy parsed value kept verbatim (truthy values
outside the enumeration are reset to absent — falsy ones such as `""` escape
that normalization). -/
theorem formalize_query_invariants (q : List Char) (resp : Option ParsedResponse) :
    (formalize_query q resp).attributes ⊆ AVAILABLE_ATTRIBUTES_keys ∧
    (resp = none → (formalize_query q resp).attributes = []) ∧
    ((formalize_query q resp).action = none ∨
      (∃ s, (formalize_query q resp).action = some (.jstr s) ∧ s ∈ AVAILABLE_ACTIONS_keys) ∨
      (∃ v, (formalize_query q resp).action = some v ∧ pyTruthy v = false)) := by
  have hsub : ∀ (l : List JVal), filterKnownAttrs l ⊆ AVAILABLE_ATTRIBUTES_keys := by
    intro l x hx
    rcases List.mem_filterMap.mp hx with ⟨v, hvm, hv⟩
    cases v with
    | jstr s =>
      by_cases hd : s ∈ AVAILABLE_ATTRIBUTES_keys
      · simp only [hd] at hv
        have hsx : s = x := by simpa using hv
        rw [← hsx]
        exact hd
      · simp [hd] at hv
    | jnull => simp at hv
    | jbool b => simp at hv
    | jnum n => simp at hv
    | jarr e => simp at hv
    | jobj f => simp at hv
  cases resp with
  | none =>
    refine ⟨?_, fun _ => rfl, Or.inl rfl⟩
    intro x hx
    cases hx
  | some p =>
    refine ⟨?_, ?_, ?_⟩
    · simp only [formalize_query]
      split_ifs with hhash
      · intro x hx
        cases hx
      · cases hga : pyGetOpt p.action with
        | none => simp only [hga]; exact hsub _
        | some av =>
          simp only [hga]
          split_ifs with htr hh hmem
          · exact hsub _
          · exact hsub _
          · intro x hx; cases hx
          · exact hsub _
    · intro h
      cases h
    · simp only [formalize_query]
      split_ifs with hhash
      · exact Or.inl rfl
      · cases hga : pyGetOpt p.action with
        | none => simp [hga]
        | some av =>
          simp only [hga]
          split_ifs with htr hh hmem
          · refine Or.inr (Or.inl ?_)
            cases av with
            | jstr s =>
              exact ⟨s, rfl, of_decide_eq_true (by simpa [jvalKeyMem] using hmem)⟩
            | jnull => simp [jvalKeyMem] at hmem
            | jbool b => simp [jvalKeyMem] at hmem
            | jnum n => simp [jvalKeyMem] at hmem
            | jarr e => simp [jvalKeyMem] at hmem
            | jobj f => simp [jvalKeyMem] at hmem
          · exact Or.inl rfl
          · exact Or.inl rfl
          · exact Or.inr (Or.inr ⟨av, rfl, by simpa using htr⟩)

/-- C5 witness: a response selecting a known attribute and a known action is
stored with those values, and the subset property holds on it. -/
theorem formalize_query_invariants_witness :
    (formalize_query "q".data
      (some ⟨some (.jarr [.jstr "Corg".data, .jstr "bogus".data]), none,
             some (.jstr "max".data), none⟩)).attributes ⊆ AVAILABLE_ATTRIBUTES_keys ∧
    (formalize_query "q".data none).attributes = [] :=
  ⟨(formalize_query_invariants "q".data
      (some ⟨some (.jarr [.jstr "Corg".data, .jstr "bogus".data]), none,
             some (.jstr "max".data), none⟩)).1,
   (formalize_query_invariants "q".data none).2.1 rfl⟩

/-- A run over attempts that all failed yields no query. -/
theorem sqlAttemptsRun_all_failed (l : List SqlAttempt)
    (h : ∀ a ∈ l, attemptFailed a = true) : sqlAttemptsRun l = none := by
  induction l with
  | nil => rfl
  | cons a rest ih =>
    cases a with
    | genFail => exact ih (fun x hx => h x (List.mem_cons_of_mem _ hx))
    | genOk raw e =>
      have he : attemptFailed (.genOk raw e) = true := h _ (List.mem_cons_self _ _)
      simp only [attemptFailed, Bool.not_eq_true'] at he
      simp only [sqlAttemptsRun, he, if_false, Bool.false_eq_true]
      exact ih (fun x hx => h x (List.mem_cons_of_mem _ hx))

/-- A run stops at the first successfully executing attempt and returns its
cleaned query. -/
theorem sqlAttemptsRun_first_success (pre : List SqlAttempt) (raw : List Char)
    (rest : List SqlAttempt) (h : ∀ a ∈ pre, attemptFailed a = true) :
    sqlAttemptsRun (pre ++ .genOk raw true :: rest) = some (stripMarkdown raw) := by
  induction pre with
  | nil => rfl
  | cons a pre' ih =>
    cases a with
    | genFail =>
      exact ih (fun x hx => h x (List.mem_cons_of_mem _ hx))
    | genOk raw' e =>
      have he : attemptFailed (.genOk raw' e) = true := h _ (List.mem_cons_self _ _)
      simp only [attemptFailed, Bool.not_eq_true'] at he
      simp only [List.cons_append, sqlAttemptsRun, he, Bool.false_eq_true, if_false]
      exact ih (fun x hx => h x (List.mem_cons_of_mem _ hx))

/-- C1: the self-healing SQL generator consumes at most three oracle outcomes
(the result is insensitive to anything after the third attempt), a successful
execution within the budget terminates the loop immediately with that query,
exhausting all three attempts yields `none` rather than an exception, and the
calling pipeline turns a `none` into an empty row contribution for the feature. -/
theorem generate_sql_query_bounded_retry :
    (∀ o1 o2 o3 : SqlAttempt, ∀ rest rest' : List SqlAttempt,
      generate_sql_query (o1 :: o2 :: o3 :: rest) 3 =
        generate_sql_query (o1 :: o2 :: o3 :: rest') 3) ∧
    (∀ outs : List SqlAttempt, (∀ a ∈ outs.take 3, attemptFailed a = true) →
      generate_sql_query outs 3 = none) ∧
    (∀ (pre : List SqlAttempt) (raw : List Char) (rest : List SqlAttempt),
      (∀ a ∈ pre, attemptFailed a = true) → pre.length < 3 →
      generate_sql_query (pre ++ .genOk raw true :: rest) 3 = some (stripMarkdown raw)) ∧
    (∀ exec : List Char → List (List Char), feature_rows exec none = []) := by
  refine ⟨?_, ?_, ?_, fun _ => rfl⟩
  · intro o1 o2 o3 rest rest'
    rfl
  · intro outs h
    exact sqlAttemptsRun_all_failed _ h
  · intro pre raw rest hpre hlen
    unfold generate_sql_query
    rw [List.take_append_eq_append_take, List.take_of_length_le (Nat.le_of_lt hlen)]
    have h3 : 3 - pre.length = (2 - pre.length) + 1 := by omega
    rw [h3, List.take_succ_cons]
    exact sqlAttemptsRun_first_success _ _ _ hpre

/-- C1 witness: three failing attempts yield no query; a failing attempt
followed by a success yields the successful query. -/
theorem generate_sql_query_bounded_retry_witness :
    generate_sql_query [.genFail, .genOk "SELECT 0".data false, .genFail] 3 = none ∧
    generate_sql_query [.genFail, .genOk "SELECT 1".data true] 3 =
      some (stripMarkdown "SELECT 1".data) :=
  ⟨generate_sql_query_bounded_retry.2.1 [.genFail, .genOk "SELECT 0".data false, .genFail]
      (by decide),
   generate_sql_query_bounded_retry.2.2.1 [.genFail] "SELECT 1".data [] (by decide) (by decide)⟩

/-- An occurrence within a list is an occurrence within any extension by a head. -/
theorem infix_extend_cons {x l : List Char} (c : Char) (h : x <:+: l) : x <:+: c :: l :=
  h.trans (List.suffix_cons c l).isInfix

/-- When no occurrence of the search literal can start inside `pre`, the regex
scan skips `pre` and matches at the literal, capturing what the tail matcher
captures. -/
theorem reSearchCandidate_at (pre s : List Char) (g : List Char)
    (hpre : ¬ (candidateLit <:+: (pre ++ candidateLit.dropLast)))
    (hs : reSearchTail s = some g) :
    reSearchCandidate (pre ++ (candidateLit ++ s)) = some g := by
  induction pre with
  | nil =>
    show reSearchCandidate ('C' :: ("andidate bindings:".data ++ s)) = some g
    rw [reSearchCandidate]
    have hp : candidateLit.isPrefixOf ('C' :: ("andidate bindings:".data ++ s)) = true := by
      rw [List.isPrefixOf_iff_prefix]
      exact List.prefix_append candidateLit s
    rw [if_pos hp]
    have hd : ('C' :: ("andidate bindings:".data ++ s)).drop candidateLit.length = s :=
      List.drop_left candidateLit s
    rw [hd, hs]
  | cons c pre' ih =>
    have hlit : candidateLit ≠ [] := by decide
    have hnp : ¬ (candidateLit <+: (c :: pre' ++ (candidateLit ++ s))) := by
      intro hp
      apply hpre
      have hw : (c :: pre' ++ candidateLit.dropLast) <+: (c :: pre' ++ (candidateLit ++ s)) := by
        refine ⟨[candidateLit.getLast hlit] ++ s, ?_⟩
        have : candidateLit.dropLast ++ ([candidateLit.getLast hlit] ++ s) =
            candidateLit ++ s := by
          rw [← List.append_assoc, List.dropLast_append_getLast hlit]
        simp only [List.append_assoc, this]
      have hlen : candidateLit.length ≤ (c :: pre' ++ candidateLit.dropLast).length := by
        simp only [List.length_cons, List.length_append, List.length_dropLast]
        have : 1 ≤ candidateLit.length := by decide
        omega
      exact (List.prefix_of_prefix_length_le hp hw hlen).isInfix
    have hpre' : ¬ (candidateLit <:+: (pre' ++ candidateLit.dropLast)) := by
      intro h
      exact hpre (infix_extend_cons c h)
    show reSearchCandidate (c :: (pre' ++ (candidateLit ++ s))) = some g
    rw [reSearchCandidate]
    rw [if_neg (by rw [List.isPrefixOf_iff_prefix]; exact hnp)]
    exact ih hpre'

/-- With no occurrence of the literal anywhere, the regex search fails. -/
theorem reSearchCandidate_none (msg : List Char)
    (h : ¬ (candidateLit <:+: msg)) : reSearchCandidate msg = none := by
  induction msg with
  | nil => rfl
  | cons c rest ih =>
    rw [reSearchCandidate]
    rw [if_neg (by
      rw [List.isPrefixOf_iff_prefix]
      intro hp
      exact h hp.isInfix)]
    exact ih (fun hi => h (infix_extend_cons c hi))

/-- `takeWhile (· ≠ '\n')` captures exactly the newline-free part of a line. -/
theorem takeWhile_until_newline (body post : List Char) (hnl : '\n' ∉ body) :
    (body ++ '\n' :: post).takeWhile (fun c => c ≠ '\n') = body := by
  induction body with
  | nil => simp [List.takeWhile]
  | cons b body' ih =>
    have hb : b ≠ '\n' := fun hb => hnl (hb ▸ List.mem_cons_self _ _)
    have ih' := ih (fun h => hnl (List.mem_cons_of_mem _ h))
    rw [List.cons_append, List.takeWhile_cons_of_pos (by simp [hb]), ih']

/-- The tail matcher on a space followed by a line that starts with a
non-whitespace character captures the whole line. -/
theorem reSearchTail_line (body post : List Char) (hne : body ≠ [])
    (hh : pyIsSpace body.headI = false) (hnl : '\n' ∉ body) :
    reSearchTail (' ' :: (body ++ '\n' :: post)) = some body := by
  obtain ⟨b, body', rfl⟩ := List.exists_cons_of_ne_nil hne
  have hb : pyIsSpace b = false := hh
  have htw : (' ' :: ((b :: body') ++ '\n' :: post)).takeWhile pyIsSpace = [' '] := by
    rw [List.takeWhile_cons_of_pos (by decide), List.cons_append,
      List.takeWhile_cons_of_neg (by simp [hb])]
  rw [reSearchTail, htw]
  have hlen : ([' '] : List Char).length < (' ' :: ((b :: body') ++ '\n' :: post)).length := by
    simp
  rw [if_pos hlen]
  have hdrop : (' ' :: ((b :: body') ++ '\n' :: post)).drop ([' '] : List Char).length =
      (b :: body') ++ '\n' :: post := by simp
  rw [hdrop]
  exact congrArg some (takeWhile_until_newline _ post hnl)

/-- The quote scanner ignores a quote-free segment while outside quotes. -/
theorem scanQuoted_none_skip (s rest : List Char) (h : '"' ∉ s) :
    scanQuoted none (s ++ rest) = scanQuoted none rest := by
  induction s with
  | nil => rfl
  | cons c s' ih =>
    have hc : c ≠ '"' := fun hc => h (hc ▸ List.mem_cons_self _ _)
    simp only [List.cons_append, scanQuoted]
    rw [if_neg hc]
    exact ih (fun hm => h (List.mem_cons_of_mem _ hm))

/-- Inside quotes, a quote-free run followed by a closing quote either emits the
accumulated group (in source order) or — when the group would be empty — restarts
at that quote. -/
theorem scanQuoted_inside (acc n rest : List Char) (hq : '"' ∉ n) :
    scanQuoted (some acc) (n ++ '"' :: rest) =
      if acc.isEmpty ∧ n = [] then scanQuoted (some []) rest
      else (acc.reverse ++ n) :: scanQuoted none rest := by
  induction n generalizing acc with
  | nil =>
    show scanQuoted (some acc) ('"' :: rest) = _
    rw [scanQuoted]
    rw [if_pos rfl]
    by_cases he : acc.isEmpty
    · rw [if_pos he, if_pos ⟨he, rfl⟩]
    · rw [if_neg he, if_neg (by simp [he])]
      simp
  | cons b n' ih =>
    have hb : b ≠ '"' := fun hb => hq (hb ▸ List.mem_cons_self _ _)
    show scanQuoted (some acc) (b :: (n' ++ '"' :: rest)) = _
    rw [scanQuoted]
    rw [if_neg hb]
    rw [ih (b :: acc) (fun hm => hq (List.mem_cons_of_mem _ hm))]
    rw [if_neg (by simp), if_neg (by simp)]
    simp

/-- The quote scanner recovers exactly the rendered names, in order. -/
theorem scanQuoted_render (names : List (List Char))
    (h : ∀ nm ∈ names, nm ≠ [] ∧ '"' ∉ nm) :
    scanQuoted none (quotedNameList names) = names := by
  induction names with
  | nil => rfl
  | cons a rest ih =>
    obtain ⟨ha, haq⟩ := h a (List.mem_cons_self _ _)
    cases rest with
    | nil =>
      show scanQuoted none ('"' :: (a ++ ['"'])) = [a]
      rw [scanQuoted, if_pos rfl]
      have : a ++ ['"'] = a ++ '"' :: [] := rfl
      rw [this, scanQuoted_inside [] a [] haq]
      rw [if_neg (by simp [ha])]
      simp [scanQuoted]
    | cons b more =>
      have hrest := fun nm hm => h nm (List.mem_cons_of_mem _ hm)
      have hshape : quotedNameList (a :: b :: more) =
          '"' :: (a ++ '"' :: (", ".data ++ quotedNameList (b :: more))) := by
        show joinWith ", ".data (('"' :: (a ++ ['"'])) :: (b :: more).map _) = _
        rw [List.map_cons, joinWith]
        simp [quotedNameList, List.append_assoc]
      rw [hshape, scanQuoted, if_pos rfl, scanQuoted_inside [] a _ haq]
      rw [if_neg (by simp [ha])]
      rw [scanQuoted_none_skip ", ".data _ (by decide)]
      rw [ih hrest]
      simp

/-- Every element of a joined list occurs in the joined text. -/
theorem mem_infix_joinWith (sep : List Char) (L : List (List Char)) (x : List Char)
    (hx : x ∈ L) : x <:+: joinWith sep L := by
  induction L with
  | nil => cases hx
  | cons a rest ih =>
    rcases List.mem_cons.mp hx with rfl | hx'
    · cases rest with
      | nil => exact List.infix_refl x
      | cons b more =>
        rw [joinWith]
        exact ⟨[], sep ++ joinWith sep (b :: more), by simp⟩
    · cases rest with
      | nil => cases hx'
      | cons b more =>
        rw [joinWith]
        refine (ih hx').trans ?_
        exact ⟨a ++ sep, [], by simp⟩

/-- Characters of a joined text come from the separator or from some element. -/
theorem mem_of_mem_joinWith (sep : List Char) (L : List (List Char)) (c : Char)
    (hc : c ∈ joinWith sep L) : c ∈ sep ∨ ∃ x ∈ L, c ∈ x := by
  induction L with
  | nil => cases hc
  | cons a rest ih =>
    cases rest with
    | nil => exact Or.inr ⟨a, List.mem_cons_self _ _, hc⟩
    | cons b more =>
      rw [joinWith] at hc
      rcases List.mem_append.mp hc with hc' | hc'
      · rcases List.mem_append.mp hc' with hc'' | hc''
        · exact Or.inr ⟨a, List.mem_cons_self _ _, hc''⟩
        · exact Or.inl hc''
      · rcases ih hc' with h | ⟨x, hx, hcx⟩
        · exact Or.inl h
        · exact Or.inr ⟨x, List.mem_cons_of_mem _ hx, hcx⟩

/-- The rendered bindings line starts with a quote. -/
theorem quotedNameList_head (names : List (List Char)) (h : names ≠ []) :
    ∃ t, quotedNameList names = '"' :: t := by
  obtain ⟨a, rest, rfl⟩ := List.exists_cons_of_ne_nil h
  cases rest with
  | nil => exact ⟨a ++ ['"'], rfl⟩
  | cons b more =>
    refine ⟨a ++ ['"'] ++ ", ".data ++ quotedNameList (b :: more), ?_⟩
    show joinWith ", ".data (('"' :: (a ++ ['"'])) :: (b :: more).map _) = _
    rw [List.map_cons, joinWith]
    simp [quotedNameList]

/-- The rendered bindings line contains no newline when no name does. -/
theorem quotedNameList_no_newline (names : List (List Char))
    (h : ∀ nm ∈ names, '\n' ∉ nm) : '\n' ∉ quotedNameList names := by
  intro hmem
  rcases mem_of_mem_joinWith ", ".data _ _ hmem with hs | ⟨x, hx, hcx⟩
  · simp at hs
  · rcases List.mem_map.mp hx with ⟨nm, hnm, rfl⟩
    rcases List.mem_cons.mp hcx with h1 | h2
    · exact absurd h1 (by decide)
    · rcases List.mem_append.mp h2 with h3 | h4
      · exact h nm hnm h3
      · simp at h4

/-- C2: (a) an error message consisting of any prefix that does not contain the
`Candidate bindings:` marker, the marker, and a line of double-quoted names
yields exactly those names in order; (b) a message without the marker yields the
empty list; (c) every extracted name is passed into the repair-prompt context
text built for the next attempt. -/
theorem extract_candidate_bindings_spec :
    (∀ pre post names, names ≠ [] →
      (∀ nm ∈ names, nm ≠ [] ∧ '"' ∉ nm ∧ '\n' ∉ nm) →
      ¬ (candidateLit <:+: (pre ++ candidateLit.dropLast)) →
      extract_candidate_bindings
        (pre ++ (candidateLit ++ (' ' :: (quotedNameList names ++ '\n' :: post)))) = names) ∧
    (∀ msg, ¬ (candidateLit <:+: msg) → extract_candidate_bindings msg = []) ∧
    (∀ bindings nm, nm ∈ bindings → nm <:+: candidate_bindings_text bindings) := by
  refine ⟨?_, ?_, ?_⟩
  · intro pre post names hne hn hpre
    have hhead := quotedNameList_head names hne
    obtain ⟨t, ht⟩ := hhead
    have hbody_ne : quotedNameList names ≠ [] := by rw [ht]; exact List.cons_ne_nil _ _
    have hbody_head : pyIsSpace (quotedNameList names).headI = false := by
      rw [ht]
      show pyIsSpace '"' = false
      decide
    have hbody_nl : '\n' ∉ quotedNameList names :=
      quotedNameList_no_newline names (fun nm hm => (hn nm hm).2.2)
    have htail := reSearchTail_line (quotedNameList names) post hbody_ne hbody_head hbody_nl
    unfold extract_candidate_bindings
    rw [reSearchCandidate_at pre _ _ hpre htail]
    exact scanQuoted_render names (fun nm hm => ⟨(hn nm hm).1, (hn nm hm).2.1⟩)
  · intro msg h
    unfold extract_candidate_bindings
    rw [reSearchCandidate_none msg h]
  · intro bindings nm hmem
    have hd : nm ∈ bindings.dedup := List.mem_dedup.mpr hmem
    unfold candidate_bindings_text
    rw [if_neg (by simpa using List.ne_nil_of_mem hd)]
    have hline : ("- `".data ++ nm ++ "`".data) ∈
        bindings.dedup.map (fun col => "- `".data ++ col ++ "`".data) :=
      List.mem_map.mpr ⟨nm, hd, rfl⟩
    refine List.IsInfix.trans ?_ (mem_infix_joinWith "\n".data _ _ hline)
    exact ⟨"- `".data, "`".data, rfl⟩

/-- C2 witness: a realistic DuckDB binder error yields the two quoted columns
in order, and each is included in the attempt-2 prompt context text. -/
theorem extract_candidate_bindings_spec_witness :
    extract_candidate_bindings
      ("Binder Error: Referenced column not found!\n".data ++
        (candidateLit ++ (' ' :: (quotedNameList ["ColA".data, "ColB".data] ++
          '\n' :: "LINE 1: SELECT x".data)))) = ["ColA".data, "ColB".data] ∧
    "ColA".data <:+: candidate_bindings_text ["ColA".data, "ColB".data] :=
  ⟨extract_candidate_bindings_spec.1 "Binder Error: Referenced column not found!\n".data
      "LINE 1: SELECT x".data ["ColA".data, "ColB".data] (by decide) (by decide) (by decide),
   extract_candidate_bindings_spec.2.2 ["ColA".data, "ColB".data] "ColA".data (by decide)⟩

/-- An occurrence in the right part of an append is an occurrence in the whole. -/
theorem infix_append_right (a : List Char) {x b : List Char} (h : x <:+: b) :
    x <:+: a ++ b :=
  h.trans (List.suffix_append a b).isInfix

/-- A non-empty coordinate list always produces a non-empty coordinates section. -/
theorem mkCoordinatesSection_ne_nil (totalResults maxRows : Nat)
    (coordLines : List (List Char)) (h : coordLines ≠ []) :
    mkCoordinatesSection totalResults maxRows coordLines ≠ [] := by
  unfold mkCoordinatesSection
  rw [if_neg (by simp [List.isEmpty_eq_false.mpr h])]
  simp

/-- The forced appendix carries the 📍 marker. -/
theorem pin_infix_appendix (coordLines : List (List Char)) :
    "📍".data <:+: mkCoordsAppendix coordLines := by
  unfold mkCoordsAppendix
  have h1 : "📍".data <:+: "\n\n📍 КООРДИНАТЫ НАЙДЕННЫХ ЗАПИСЕЙ:\n".data := by decide
  exact h1.trans (List.prefix_append _ _).isInfix

/-- C3: for a non-empty extracted coordinate list, the final answer always
mentions the coordinates — it contains the keyword `координат`
(case-insensitively) or the 📍 marker; and whenever the LLM's text contains
neither, the appended section lists every extracted coordinate line
(with its `Запись` prefix rewritten to a bullet). -/
theorem final_summary_mentions_coordinates (totalResults maxRows : Nat)
    (coordLines : List (List Char)) (retrievedData t : List Char)
    (hne : coordLines ≠ []) :
    ("координат".data <:+:
        pyLower (generate_final_summary totalResults maxRows coordLines retrievedData (.ok t)) ∨
      "📍".data <:+:
        generate_final_summary totalResults maxRows coordLines retrievedData (.ok t)) ∧
    (¬ ("координат".data <:+: pyLower (pyStrip t)) → ¬ ("📍".data <:+: pyStrip t) →
      ∀ line ∈ coordLines, replaceZapis line <:+:
        generate_final_summary totalResults maxRows coordLines retrievedData (.ok t)) := by
  have hsec : mkCoordinatesSection totalResults maxRows coordLines ≠ [] :=
    mkCoordinatesSection_ne_nil totalResults maxRows coordLines hne
  have hout : generate_final_summary totalResults maxRows coordLines retrievedData (.ok t) =
      summaryPostCheck (mkCoordinatesSection totalResults maxRows coordLines) coordLines
        (pyStrip t) := rfl
  rw [hout]
  by_cases h2 : ("координат".data <:+: pyLower (pyStrip t))
  · have hpc : summaryPostCheck (mkCoordinatesSection totalResults maxRows coordLines)
        coordLines (pyStrip t) = pyStrip t := by
      unfold summaryPostCheck
      rw [if_neg (by simp [pyContains, h2])]
    rw [hpc]
    exact ⟨Or.inl h2, fun h2' _ => absurd h2 h2'⟩
  · by_cases h3 : ("📍".data <:+: pyStrip t)
    · have hpc : summaryPostCheck (mkCoordinatesSection totalResults maxRows coordLines)
          coordLines (pyStrip t) = pyStrip t := by
        unfold summaryPostCheck
        rw [if_neg (by simp [pyContains, h3])]
      rw [hpc]
      exact ⟨Or.inr h3, fun _ h3' => absurd h3 h3'⟩
    · have hpc : summaryPostCheck (mkCoordinatesSection totalResults maxRows coordLines)
          coordLines (pyStrip t) = pyStrip t ++ mkCoordsAppendix coordLines := by
        unfold summaryPostCheck
        rw [if_pos (by simp [pyContains, h2, h3, List.isEmpty_eq_false.mpr hsec])]
      rw [hpc]
      constructor
      · exact Or.inr (infix_append_right _ (pin_infix_appendix coordLines))
      · intro _ _ line hline
        refine infix_append_right _ ?_
        unfold mkCoordsAppendix
        refine infix_append_right _ ?_
        exact mem_infix_joinWith "\n".data _ _ (List.mem_map.mpr ⟨line, hline, rfl⟩)

/-- C3 witness: with one extracted coordinate line and an LLM answer that does
not mention coordinates, the bulleted coordinate line ends up in the answer. -/
theorem final_summary_mentions_coordinates_witness :
    replaceZapis "Запись 1: Долгота: 44.3, Широта: 48.0".data <:+:
      generate_final_summary 1 10 ["Запись 1: Долгота: 44.3, Широта: 48.0".data]
        "row".data (.ok "Здесь нет ничего интересного.".data) :=
  (final_summary_mentions_coordinates 1 10 ["Запись 1: Долгота: 44.3, Широта: 48.0".data]
      "row".data "Здесь нет ничего интересного.".data (by decide)).2
    (by decide) (by decide) "Запись 1: Долгота: 44.3, Широта: 48.0".data (by decide)

/-- Any coordinate produced by the per-row extraction passed the range check. -/
theorem rowCoord_ranges (idx : Nat) (r : CoordRow) (c : GeoCoordinate)
    (h : rowCoord idx r = some c) :
    -180 ≤ c.lon ∧ c.lon ≤ 180 ∧ -90 ≤ c.lat ∧ c.lat ≤ 90 := by
  obtain ⟨rlon, rlat, i1, i2, i3, i4, i5⟩ := r
  cases rlon with
  | none => simp [rowCoord] at h
  | some lonRaw =>
    cases rlat with
    | none => simp [rowCoord] at h
    | some latRaw =>
      simp only [rowCoord] at h
      split at h
      · split_ifs at h with hcond
        · rw [Option.some.injEq] at h
          rw [← h]
          exact hcond
      · cases h

/-- C4: every coordinate returned by `extract_coordinates` has its longitude in
[-180, 180] and latitude in [-90, 90]; a row with a null cell is dropped, a row
whose longitude text is neither numeric nor array-like is dropped (no exception
paths exist — every failure is a `continue`), and an array-like cell yields its
first element as the longitude and its last element as the latitude. -/
theorem extract_coordinates_spec :
    (∀ hasLL rows c, c ∈ extract_coordinates hasLL rows →
      -180 ≤ c.lon ∧ c.lon ≤ 180 ∧ -90 ≤ c.lat ∧ c.lat ≤ 90) ∧
    (∀ idx r, r.lon = none → rowCoord idx r = none) ∧
    (∀ idx r lonRaw, r.lon = some lonRaw → (pyStrip lonRaw).head? ≠ some '[' →
      pyFloat (pyStrip lonRaw) = none → rowCoord idx r = none) ∧
    (∀ s x xs, literalList s = some (x :: xs) →
      lonFromStr s = some x ∧ latFromStr s = some ((x :: xs).getLastD 0)) := by
  refine ⟨?_, ?_, ?_, ?_⟩
  · intro hasLL rows c hc
    cases hasLL with
    | false => cases hc
    | true =>
      unfold extract_coordinates at hc
      rw [if_pos rfl] at hc
      rcases List.mem_filterMap.mp hc with ⟨p, _, hp⟩
      exact rowCoord_ranges p.1 p.2 c hp
  · intro idx r hlon
    unfold rowCoord
    rw [hlon]
  · intro idx r lonRaw hlon hhead hfloat
    have hlf : lonFromStr (pyStrip lonRaw) = none := by
      unfold lonFromStr
      rw [if_neg hhead]
      exact hfloat
    obtain ⟨rlon, rlat, i1, i2, i3, i4, i5⟩ := r
    have hlon' : rlon = some lonRaw := hlon
    subst hlon'
    cases rlat with
    | none => rfl
    | some latRaw =>
      simp only [rowCoord]
      rw [hlf]
  · intro s x xs h
    have h0 := h
    unfold literalList at h
    split at h
    · next rest =>
      constructor
      · unfold lonFromStr
        rw [if_pos (show ('[' :: rest).head? = some '[' from rfl), h0]
      · unfold latFromStr
        rw [if_pos (show ('[' :: rest).head? = some '[' from rfl), h0]
    · next hne => cases h

/-- C4 witness: the array-like cell text `"[44.3, 48.0]"` yields longitude 44.3
(first element) and latitude 48.0 (last element). -/
theorem extract_coordinates_spec_witness :
    lonFromStr "[44.3, 48.0]".data = some (443 / 10 : ℚ) ∧
    latFromStr "[44.3, 48.0]".data = some (48 : ℚ) := by
  have hl : literalList "[44.3, 48.0]".data = some ((443 / 10 : ℚ) :: [(48 : ℚ)]) := by
    simp +decide [literalList, splitComma, pyStrip, pyFloat, parseUnsigned, digitsVal,
      List.takeWhile, List.dropWhile, List.mapM.loop, pyIsSpace, pyIsDigit]
    norm_num
  have h := extract_coordinates_spec.2.2.2 "[44.3, 48.0]".data (443 / 10 : ℚ) [(48 : ℚ)] hl
  exact ⟨h.1, by simpa using h.2⟩

/-- Every rendered character of a number is a decimal digit. -/
theorem natCharsAux_digits : ∀ fuel n : Nat, ∀ c ∈ natCharsAux fuel n, pyIsDigit c = true := by
  have hdc : ∀ d < 10, pyIsDigit (Nat.digitChar d) = true := by decide
  intro fuel
  induction fuel with
  | zero => intro n c hc; cases hc
  | succ f ih =>
    intro n c hc
    rw [natCharsAux] at hc
    split_ifs at hc with h0
    · cases hc
    · rcases List.mem_append.mp hc with hc' | hc'
      · exact ih _ c hc'
      · rcases List.mem_singleton.mp hc' with rfl
        exact hdc _ (Nat.mod_lt _ (by omega))

/-- Every character of `natChars n` is a decimal digit. -/
theorem natChars_digits (n : Nat) : ∀ c ∈ natChars n, pyIsDigit c = true :=
  natCharsAux_digits n n

/-- A positive number renders to a non-empty digit string. -/
theorem natChars_ne_nil (n : Nat) (h : 1 ≤ n) : natChars n ≠ [] := by
  obtain ⟨k, rfl⟩ : ∃ k, n = k + 1 := ⟨n - 1, by omega⟩
  unfold natChars natCharsAux
  rw [if_neg (by omega)]
  simp

/-- The rendering does not depend on the fuel once it covers the number. -/
theorem natCharsAux_fuel : ∀ n f₁ f₂ : Nat, n ≤ f₁ → n ≤ f₂ →
    natCharsAux f₁ n = natCharsAux f₂ n := by
  intro n
  induction n using Nat.strong_induction_on with
  | _ n ih =>
    intro f₁ f₂ h1 h2
    cases hn : n with
    | zero =>
      cases f₁ with
      | zero =>
        cases f₂ with
        | zero => rfl
        | succ b => rw [natCharsAux, natCharsAux, if_pos rfl]
      | succ a =>
        cases f₂ with
        | zero => rw [natCharsAux, natCharsAux, if_pos rfl]
        | succ b => rw [natCharsAux, natCharsAux, if_pos rfl, if_pos rfl]
    | succ m =>
      subst hn
      obtain ⟨a, rfl⟩ : ∃ a, f₁ = a + 1 := ⟨f₁ - 1, by omega⟩
      obtain ⟨b, rfl⟩ : ∃ b, f₂ = b + 1 := ⟨f₂ - 1, by omega⟩
      rw [natCharsAux, natCharsAux, if_neg (by omega), if_neg (by omega)]
      have hdiv : (m + 1) / 10 < m + 1 := Nat.div_lt_self (by omega) (by omega)
      rw [ih ((m + 1) / 10) hdiv a b (by omega) (by omega)]

/-- Peeling the last digit off the rendering of a positive number. -/
theorem natChars_decomp (n : Nat) (h : 1 ≤ n) :
    natChars n = natChars (n / 10) ++ [Nat.digitChar (n % 10)] := by
  obtain ⟨k, rfl⟩ : ∃ k, n = k + 1 := ⟨n - 1, by omega⟩
  show natCharsAux (k + 1) (k + 1) = _
  rw [natCharsAux, if_neg (by omega)]
  have hdiv : (k + 1) / 10 < k + 1 := Nat.div_lt_self (by omega) (by omega)
  rw [natCharsAux_fuel ((k + 1) / 10) k ((k + 1) / 10) (by omega) (le_refl _)]
  rfl

/-- Splitting an equality between two lists that both end in a singleton. -/
theorem append_singleton_inj {l₁ l₂ : List Char} {a b : Char}
    (h : l₁ ++ [a] = l₂ ++ [b]) : l₁ = l₂ ∧ a = b := by
  have h2 := congrArg List.reverse h
  simp only [List.reverse_append, List.reverse_singleton, List.singleton_append,
    List.cons.injEq] at h2
  exact ⟨by rw [← List.reverse_reverse l₁, h2.2, List.reverse_reverse], h2.1⟩

/-- Decimal rendering is injective. -/
theorem natChars_inj : ∀ m n : Nat, natChars m = natChars n → m = n := by
  have hdc : ∀ a < 10, ∀ b < 10, Nat.digitChar a = Nat.digitChar b → a = b := by decide
  intro m
  induction m using Nat.strong_induction_on with
  | _ m ih =>
    intro n h
    rcases Nat.eq_zero_or_pos m with rfl | hm
    · rcases Nat.eq_zero_or_pos n with rfl | hn
      · rfl
      · exact absurd h.symm (natChars_ne_nil n hn)
    · rcases Nat.eq_zero_or_pos n with rfl | hn
      · exact absurd h (natChars_ne_nil m hm)
      · rw [natChars_decomp m hm, natChars_decomp n hn] at h
        obtain ⟨hpre, hdig⟩ := append_singleton_inj h
        have hmod : m % 10 = n % 10 :=
          hdc _ (Nat.mod_lt _ (by omega)) _ (Nat.mod_lt _ (by omega)) hdig
        have hdivlt : m / 10 < m := Nat.div_lt_self hm (by omega)
        have hdiv : m / 10 = n / 10 := ih (m / 10) hdivlt (n / 10) hpre
        omega

/-- Lowercasing fixes decimal digits. -/
theorem toLowerPy_digit (c : Char) (h : pyIsDigit c = true) : toLowerPy c = c := by
  simp only [pyIsDigit, Bool.and_eq_true, decide_eq_true_eq] at h
  unfold toLowerPy
  rw [if_neg (by simp only [Bool.and_eq_true, decide_eq_true_eq, not_and, not_le]; omega),
    if_neg (by simp only [Bool.and_eq_true, decide_eq_true_eq, not_and, not_le]; omega),
    if_neg (by omega)]

/-- Lowercasing fixes a string of decimal digits. -/
theorem pyLower_digits (l : List Char) (hl : ∀ c ∈ l, pyIsDigit c = true) :
    pyLower l = l := by
  induction l with
  | nil => rfl
  | cons c cs ih =>
    show toLowerPy c :: pyLower cs = c :: cs
    rw [toLowerPy_digit c (hl c (List.mem_cons_self _ _)),
      ih (fun x hx => hl x (List.mem_cons_of_mem _ hx))]

/-- Lowercasing fixes a rendered number. -/
theorem pyLower_natChars (n : Nat) : pyLower (natChars n) = natChars n :=
  pyLower_digits _ (natChars_digits n)

/-- Lowercasing fixes the `_dup` marker. -/
theorem pyLower_dupMarker : pyLower dupMarker = dupMarker := by decide

/-- `pyLower` distributes over append. -/
theorem pyLower_append (a b : List Char) : pyLower (a ++ b) = pyLower a ++ pyLower b :=
  List.map_append toLowerPy a b

/-- Base case of the marker-alignment argument: a string starting at the marker
can only equal `u ++ marker ++ digits` when `u` is empty, because no character
of `dup` or of a digit string is an underscore. -/
theorem dup_digits_nil_case : ∀ (u d₁ d₂ : List Char),
    (∀ c ∈ d₁, pyIsDigit c = true) → (∀ c ∈ d₂, pyIsDigit c = true) →
    dupMarker ++ d₁ = u ++ dupMarker ++ d₂ → u = [] ∧ d₁ = d₂ := by
  have hdm : dupMarker = ['_', 'd', 'u', 'p'] := rfl
  intro u d₁ d₂ h1 h2 h
  rcases u with _ | ⟨c1, _ | ⟨c2, _ | ⟨c3, _ | ⟨c4, u5⟩⟩⟩⟩
  · refine ⟨rfl, ?_⟩
    simpa using h
  · rw [hdm] at h
    simp only [List.cons_append, List.nil_append, List.cons.injEq] at h
    exact absurd h.2.1 (by decide)
  · rw [hdm] at h
    simp only [List.cons_append, List.nil_append, List.cons.injEq] at h
    exact absurd h.2.2.1 (by decide)
  · rw [hdm] at h
    simp only [List.cons_append, List.nil_append, List.cons.injEq] at h
    exact absurd h.2.2.2.1 (by decide)
  · rw [hdm] at h
    simp only [List.cons_append, List.nil_append, List.cons.injEq] at h
    have hmem : '_' ∈ d₁ := by
      rw [h.2.2.2.2]
      simp
    exact absurd (h1 '_' hmem) (by decide)

/-- Alignment: two `base ++ "_dup" ++ digits` names are equal only when both the
bases and the digit parts agree. -/
theorem dup_digits_split : ∀ (u₁ u₂ d₁ d₂ : List Char),
    (∀ c ∈ d₁, pyIsDigit c = true) → (∀ c ∈ d₂, pyIsDigit c = true) →
    u₁ ++ dupMarker ++ d₁ = u₂ ++ dupMarker ++ d₂ → u₁ = u₂ ∧ d₁ = d₂ := by
  intro u₁
  induction u₁ with
  | nil =>
    intro u₂ d₁ d₂ h1 h2 h
    obtain ⟨hu, hd⟩ := dup_digits_nil_case u₂ d₁ d₂ h1 h2 (by simpa using h)
    exact ⟨hu.symm, hd⟩
  | cons a u₁' ih =>
    intro u₂ d₁ d₂ h1 h2 h
    cases u₂ with
    | nil =>
      obtain ⟨hu, _⟩ := dup_digits_nil_case (a :: u₁') d₂ d₁ h2 h1 (by simpa using h.symm)
      exact absurd hu (List.cons_ne_nil a u₁')
    | cons b u₂' =>
      simp only [List.cons_append, List.cons.injEq] at h
      obtain ⟨hab, hrest⟩ := h
      obtain ⟨hu, hd⟩ := ih u₂' d₁ d₂ h1 h2 (by simpa using hrest)
      exact ⟨by rw [hab, hu], hd⟩

/-- The validity bound needed to read back a shifted character code. -/
theorem char_toNat_ofNat (n : Nat) (h : n < 55296) : (Char.ofNat n).toNat = n := by
  unfold Char.ofNat
  rw [dif_pos]
  · rfl
  · exact Or.inl h

/-- Python lowering never changes whether a character is whitespace. -/
theorem pyIsSpace_toLowerPy (c : Char) : pyIsSpace (toLowerPy c) = pyIsSpace c := by
  unfold toLowerPy
  split_ifs with h1 h2 h3
  · have h1' : 65 ≤ c.toNat ∧ c.toNat ≤ 90 := by simpa using h1
    have hm := char_toNat_ofNat (c.toNat + 32) (by omega)
    simp only [pyIsSpace, hm]
    rw [Bool.eq_iff_iff]
    simp only [Bool.or_eq_true, decide_eq_true_eq]
    omega
  · have h2' : 1040 ≤ c.toNat ∧ c.toNat ≤ 1071 := by simpa using h2
    have hm := char_toNat_ofNat (c.toNat + 32) (by omega)
    simp only [pyIsSpace, hm]
    rw [Bool.eq_iff_iff]
    simp only [Bool.or_eq_true, decide_eq_true_eq]
    omega
  · have h3' : c.toNat = 1025 := by simpa using h3
    have hm := char_toNat_ofNat 1105 (by omega)
    simp only [pyIsSpace, hm]
    rw [Bool.eq_iff_iff]
    simp only [Bool.or_eq_true, decide_eq_true_eq]
    omega
  · rfl

/-- Stripping commutes with lowering. -/
theorem pyStrip_pyLower (s : List Char) : pyStrip (pyLower s) = pyLower (pyStrip s) := by
  have hfun : (pyIsSpace ∘ toLowerPy) = pyIsSpace := funext pyIsSpace_toLowerPy
  have hdw : ∀ l : List Char, (l.map toLowerPy).dropWhile pyIsSpace =
      (l.dropWhile pyIsSpace).map toLowerPy := by
    intro l
    rw [List.dropWhile_map, hfun]
  unfold pyStrip pyLower
  rw [hdw, ← List.map_reverse, hdw, List.map_reverse]

/-- Case-insensitively equal columns have the same collision key. -/
theorem renameKey_of_lower_eq {a b : List Char} (h : pyLower a = pyLower b) :
    renameKey a = renameKey b := by
  unfold renameKey
  rw [← pyStrip_pyLower, ← pyStrip_pyLower, h]

/-- Updating a present key makes its lookup return the new value. -/
theorem seenLookup_seenSet_self (seen : List (List Char × Nat)) (key : List Char) (v : Nat)
    (h : (seenLookup seen key).isSome) :
    seenLookup (seenSet seen key v) key = some v := by
  induction seen with
  | nil => cases h
  | cons p rest ih =>
    obtain ⟨k', v'⟩ := p
    by_cases hk : k' = key
    · rw [seenSet, if_pos hk, seenLookup, if_pos hk]
    · rw [seenSet, if_neg hk, seenLookup, if_neg hk]
      rw [seenLookup, if_neg hk] at h
      exact ih h

/-- Updating one key leaves every other key's lookup unchanged. -/
theorem seenLookup_seenSet_other (seen : List (List Char × Nat)) (key : List Char) (v : Nat)
    (k : List Char) (h : k ≠ key) :
    seenLookup (seenSet seen key v) k = seenLookup seen k := by
  induction seen with
  | nil => rfl
  | cons p rest ih =>
    obtain ⟨k', v'⟩ := p
    by_cases hk : k' = key
    · have hne : k' ≠ k := by rw [hk]; exact fun he => h he.symm
      rw [seenSet, if_pos hk, seenLookup, if_neg hne, seenLookup, if_neg hne]
      exact ih
    · by_cases hkk : k' = k
      · rw [seenSet, if_neg hk, seenLookup, if_pos hkk, seenLookup, if_pos hkk]
      · rw [seenSet, if_neg hk, seenLookup, if_neg hkk, seenLookup, if_neg hkk]
        exact ih

/-- The column-renaming loop: under the assumption that no original column name
contains `_dup` (case-insensitively), no later output collides
case-insensitively with a fixed name `a` that is either an already-recorded kept
name or an already-generated suffixed name whose counter is below the recorded
count of its key. -/
theorem renameGo_avoid (cols : List (List Char)) :
    ∀ (seen : List (List Char × Nat)) (a : List Char),
    (∀ c ∈ cols, ¬ (dupMarker <:+: pyLower c)) →
    ((∃ c₀, a = c₀ ∧ ¬ (dupMarker <:+: pyLower c₀) ∧
        (seenLookup seen (renameKey c₀)).isSome) ∨
     (∃ c₀ cnt₀ v, a = c₀ ++ dupMarker ++ natChars cnt₀ ∧ ¬ (dupMarker <:+: pyLower c₀) ∧
        seenLookup seen (renameKey c₀) = some v ∧ cnt₀ < v)) →
    ∀ d ∈ renameColumnsGo seen cols, pyLower d ≠ pyLower a := by
  induction cols with
  | nil =>
    intro seen a _ _ d hd
    cases hd
  | cons c cs ih =>
    intro seen a hH ha d hd
    have hHc := hH c (List.mem_cons_self _ _)
    have hHcs := fun x hx => hH x (List.mem_cons_of_mem _ hx)
    simp only [renameColumnsGo] at hd
    cases hsl : seenLookup seen (renameKey c) with
    | some count =>
      rw [hsl] at hd
      rcases List.mem_cons.mp hd with rfl | hdtail
      · rcases ha with ⟨c₀, rfl, hnd, _⟩ | ⟨c₀, cnt₀, v, rfl, hnd, hlook, hlt⟩
        · intro he
          apply hnd
          rw [← he, pyLower_append, pyLower_append, pyLower_dupMarker, pyLower_natChars]
          exact ⟨pyLower c, natChars count, by simp⟩
        · intro he
          rw [pyLower_append, pyLower_append, pyLower_dupMarker, pyLower_natChars,
            pyLower_append, pyLower_append, pyLower_dupMarker, pyLower_natChars] at he
          obtain ⟨hu, hdid⟩ := dup_digits_split _ _ _ _ (natChars_digits count)
            (natChars_digits cnt₀) he
          have hkey : renameKey c = renameKey c₀ := renameKey_of_lower_eq hu
          have hcnt : count = cnt₀ := natChars_inj _ _ hdid
          rw [hkey, hlook] at hsl
          have : v = count := Option.some.inj hsl
          omega
      · refine ih (seenSet seen (renameKey c) (count + 1)) a hHcs ?_ d hdtail
        rcases ha with ⟨c₀, rfl, hnd, hsome⟩ | ⟨c₀, cnt₀, v, rfl, hnd, hlook, hlt⟩
        · left
          refine ⟨a, rfl, hnd, ?_⟩
          by_cases hk : renameKey a = renameKey c
          · rw [hk, seenLookup_seenSet_self _ _ _ (by rw [hsl]; rfl)]
            rfl
          · rw [seenLookup_seenSet_other _ _ _ _ hk]
            exact hsome
        · right
          by_cases hk : renameKey c₀ = renameKey c
          · refine ⟨c₀, cnt₀, count + 1, rfl, hnd, ?_, ?_⟩
            · rw [hk, seenLookup_seenSet_self _ _ _ (by rw [hsl]; rfl)]
            · rw [hk, hsl] at hlook
              have : count = v := Option.some.inj hlook
              omega
          · refine ⟨c₀, cnt₀, v, rfl, hnd, ?_, hlt⟩
            rw [seenLookup_seenSet_other _ _ _ _ hk]
            exact hlook
    | none =>
      rw [hsl] at hd
      rcases List.mem_cons.mp hd with rfl | hdtail
      · rcases ha with ⟨c₀, rfl, hnd, hsome⟩ | ⟨c₀, cnt₀, v, rfl, hnd, hlook, hlt⟩
        · intro he
          have hkey : renameKey d = renameKey a := renameKey_of_lower_eq he
          rw [← hkey, hsl] at hsome
          cases hsome
        · intro he
          apply hHc
          rw [he, pyLower_append, pyLower_append, pyLower_dupMarker, pyLower_natChars]
          exact ⟨pyLower c₀, natChars cnt₀, by simp⟩
      · refine ih ((renameKey c, 1) :: seen) a hHcs ?_ d hdtail
        rcases ha with ⟨c₀, rfl, hnd, hsome⟩ | ⟨c₀, cnt₀, v, rfl, hnd, hlook, hlt⟩
        · left
          refine ⟨a, rfl, hnd, ?_⟩
          simp only [seenLookup]
          by_cases hk : renameKey c = renameKey a
          · rw [if_pos hk]
            rfl
          · rw [if_neg hk]
            exact hsome
        · right
          refine ⟨c₀, cnt₀, v, rfl, hnd, ?_, hlt⟩
          simp only [seenLookup]
          have hk : renameKey c ≠ renameKey c₀ := by
            intro hk
            rw [← hk, hsl] at hlook
            cases hlook
          rw [if_neg hk]
          exact hlook

/-- Pairwise case-insensitive distinctness of the renamed columns, for any
starting `seen` state, provided no original name contains `_dup`. -/
theorem renameGo_pairwise (cols : List (List Char)) :
    ∀ seen : List (List Char × Nat),
    (∀ c ∈ cols, ¬ (dupMarker <:+: pyLower c)) →
    (renameColumnsGo seen cols).Pairwise (fun a b => pyLower a ≠ pyLower b) := by
  induction cols with
  | nil =>
    intro seen _
    exact List.Pairwise.nil
  | cons c cs ih =>
    intro seen hH
    have hHc := hH c (List.mem_cons_self _ _)
    have hHcs := fun x hx => hH x (List.mem_cons_of_mem _ hx)
    simp only [renameColumnsGo]
    cases hsl : seenLookup seen (renameKey c) with
    | some count =>
      refine List.Pairwise.cons ?_ (ih _ hHcs)
      intro d hd
      exact (renameGo_avoid cs (seenSet seen (renameKey c) (count + 1))
        (c ++ dupMarker ++ natChars count) hHcs
        (Or.inr ⟨c, count, count + 1, rfl, hHc,
          by rw [seenLookup_seenSet_self _ _ _ (by rw [hsl]; rfl)], by omega⟩) d hd).symm
    | none =>
      refine List.Pairwise.cons ?_ (ih _ hHcs)
      intro d hd
      exact (renameGo_avoid cs ((renameKey c, 1) :: seen) c hHcs
        (Or.inl ⟨c, rfl, hHc, by simp only [seenLookup, if_pos rfl]; rfl⟩) d hd).symm

/-- The renaming loop preserves the number of columns. -/
theorem renameColumnsGo_length (cols : List (List Char)) :
    ∀ seen, (renameColumnsGo seen cols).length = cols.length := by
  induction cols with
  | nil => intro seen; rfl
  | cons c cs ih =>
    intro seen
    simp only [renameColumnsGo]
    cases seenLookup seen (renameKey c) with
    | some count => simp [ih]
    | none => simp [ih]

/-- A column whose key collides with no earlier column is kept at its position
with its original name. -/
theorem renameGo_kept : ∀ (cols : List (List Char)) (seen : List (List Char × Nat))
    (i : Nat) (col : List Char),
    cols.get? i = some col →
    seenLookup seen (renameKey col) = none →
    (∀ j colj, j < i → cols.get? j = some colj → renameKey colj ≠ renameKey col) →
    (renameColumnsGo seen cols).get? i = some col := by
  intro cols
  induction cols with
  | nil =>
    intro seen i col hget _ _
    cases hget
  | cons c cs ih =>
    intro seen i col hget hnone hprev
    cases i with
    | zero =>
      have hc : c = col := Option.some.inj hget
      subst hc
      simp only [renameColumnsGo, hnone]
      rfl
    | succ i' =>
      have hget' : cs.get? i' = some col := hget
      have hkey0 : renameKey c ≠ renameKey col :=
        hprev 0 c (Nat.succ_pos i') rfl
      have hprev' : ∀ j colj, j < i' → cs.get? j = some colj →
          renameKey colj ≠ renameKey col := by
        intro j colj hj hgj
        exact hprev (j + 1) colj (Nat.succ_lt_succ hj) hgj
      simp only [renameColumnsGo]
      cases hsl : seenLookup seen (renameKey c) with
      | some count =>
        show (renameColumnsGo (seenSet seen (renameKey c) (count + 1)) cs).get? i' = some col
        refine ih _ i' col hget' ?_ hprev'
        rw [seenLookup_seenSet_other _ _ _ _ (fun he => hkey0 he.symm)]
        exact hnone
      | none =>
        show (renameColumnsGo ((renameKey c, 1) :: seen) cs).get? i' = some col
        refine ih _ i' col hget' ?_ hprev'
        rw [seenLookup, if_neg hkey0]
        exact hnone

/-- C7 counterexample: the renaming of `_load_csv` does not always produce
pairwise case-insensitively distinct names — a table whose columns are
`regio_dup1`, `Regio`, `regio` is renamed to `regio_dup1`, `Regio`,
`regio_dup1`, an exact duplicate. -/
theorem rename_columns_claim_counterexample :
    renameColumns ["regio_dup1".data, "Regio".data, "regio".data] =
      ["regio_dup1".data, "Regio".data, "regio_dup1".data] ∧
    ¬ (renameColumns ["regio_dup1".data, "Regio".data, "regio".data]).Pairwise
      (fun a b => pyLower a ≠ pyLower b) := by
  constructor
  · decide
  · intro h
    have h0 : renameColumns ["regio_dup1".data, "Regio".data, "regio".data] =
        ["regio_dup1".data, "Regio".data, "regio_dup1".data] := by decide
    rw [h0] at h
    cases h with
    | cons hp _ => exact hp "regio_dup1".data (by simp) rfl

/-- C7 amended: colliding columns (same `strip().lower()` key as an earlier
column) are renamed by appending `_dup{count}` before anything downstream sees
the schema; provided no original column name contains `_dup`
case-insensitively, the resulting names are pairwise distinct under
case-insensitive comparison; the column count is preserved; and a column whose
key collides with no earlier column keeps its original name at its position. -/
theorem rename_columns_disambiguation (cols : List (List Char))
    (hH : ∀ c ∈ cols, ¬ (dupMarker <:+: pyLower c)) :
    (renameColumns cols).Pairwise (fun a b => pyLower a ≠ pyLower b) ∧
    (renameColumns cols).length = cols.length ∧
    (∀ i col, cols.get? i = some col →
      (∀ j colj, j < i → cols.get? j = some colj → renameKey colj ≠ renameKey col) →
      (renameColumns cols).get? i = some col) :=
  ⟨renameGo_pairwise cols [] hH, renameColumnsGo_length cols [],
   fun i col hget hprev => renameGo_kept cols [] i col hget rfl hprev⟩

/-- C7 witness: `Regio`, `regio`, `Depth` — none containing `_dup` — are renamed
to pairwise case-insensitively distinct names, and the first (non-colliding)
column keeps its name. -/
theorem rename_columns_disambiguation_witness :
    (renameColumns ["Regio".data, "regio".data, "Depth".data]).Pairwise
      (fun a b => pyLower a ≠ pyLower b) ∧
    (renameColumns ["Regio".data, "regio".data, "Depth".data]).get? 0 =
      some "Regio".data := by
  have h := rename_columns_disambiguation ["Regio".data, "regio".data, "Depth".data]
    (by decide)
  exact ⟨h.1, h.2.2 0 "Regio".data rfl (fun j colj hj _ => absurd hj (Nat.not_lt_zero j))⟩
